import Mathlib

/-!
# gotway: error translation, cache-read middleware, middleware chain and ingress controller

A shallow embedding of

* `internal/http/error/error.go` (`Handle`),
* `internal/http/middleware.go` (`Server.cacheMiddleware`),
* `cmd/gotway/main.go` (`configureMiddlewares`),
* `pkg/kubernetes/controller/controller.go` (`FindIngress`, `UpdateIngressStatus`),

followed by the properties proved about them.

Conventions of the embedding.

* Calls on collaborators that only produce effects (the logger, the
  `http.ResponseWriter`, the `next` handler, the controller's mutex) are
  recorded, in program order, as a list of effects returned by the function.
* A Go `error` is a value of `GoError`; the `nil` error is `none`.
* A Go map that the code ranges over is an association list, its order being
  the order in which the `range` statement visits the entries.
-/

set_option autoImplicit false

namespace Gotway

/-! ## Go errors -/

/-- A package-level error variable initialised with `errors.New(text)`.  Two such
variables hold the same pointer exactly when they are the same variable. -/
structure ErrorVar where
  pkg : String
  name : String
  text : String
  deriving DecidableEq, Repr

/-- The error values the program can be handed.

* `var v`: the value of the package-level variable `v`;
* `errorf text`: a value freshly allocated by `fmt.Errorf` without `%w` (or by
  `errors.New` inside a function): it is equal to no package-level variable
  and wraps nothing;
* `wrap text inner`: `fmt.Errorf` with one `%w` verb;
* `join errs`: `errors.Join` or `fmt.Errorf` with several `%w` verbs;
* `custom text isMethod unwrap`: a value of a declared error type, with its
  method `Is` (constantly false when the type has none) and what its method
  `Unwrap` returns (nothing, one error or several). -/
inductive GoError where
  | var (v : ErrorVar)
  | errorf (text : String)
  | wrap (text : String) (inner : GoError)
  | join (errs : List GoError)
  | custom (text : String) (isMethod : ErrorVar → Bool) (unwrap : List GoError)

mutual
/-- The function `errors.Is(err, target)` for a target that is a package-level
variable: `err == target`, or the method `Is` of `err` accepts the target, or
the search continues in what `err` unwraps to. -/
def errorsIs : GoError → ErrorVar → Bool
  | .var v, target => decide (v = target)
  | .errorf _, _ => false
  | .wrap _ inner, target => errorsIs inner target
  | .join errs, target => errorsIsAny errs target
  | .custom _ isMethod unwrap, target => isMethod target || errorsIsAny unwrap target
/-- The loop of `errors.Is` over the result of `Unwrap() []error`. -/
def errorsIsAny : List GoError → ErrorVar → Bool
  | [], _ => false
  | e :: es, target => errorsIs e target || errorsIsAny es target
end

/-- The method `Error()` of a package-level error variable. -/
def ErrorVar.Error (v : ErrorVar) : String := v.text

/-- The variable `ErrIngressNotFound = errors.New("ingress not found")` of
`pkg/kubernetes/controller`. -/
def ErrIngressNotFound : ErrorVar :=
  ⟨"controller", "ErrIngressNotFound", "ingress not found"⟩

/-- Modelled from the spec: the error variables `model.ErrInvalidDeleteCache`
and `model.ErrCacheNotFound` of `internal/model`, which is not among the
sources.  Their texts are taken as given. -/
structure ModelErrors where
  ErrInvalidDeleteCache : ErrorVar
  ErrCacheNotFound : ErrorVar

/-! ## HTTP vocabulary -/

/-- The constant `http.StatusBadRequest`. -/
def StatusBadRequest : Int := 400
/-- The constant `http.StatusNotFound`. -/
def StatusNotFound : Int := 404
/-- The constant `http.StatusInternalServerError`. -/
def StatusInternalServerError : Int := 500
/-- The constant `http.StatusOK`. -/
def StatusOK : Int := 200

/-- An `*http.Request`, as far as the embedded code looks at it: the code only
passes it on. -/
structure Request where
  method : String
  host : String
  path : String
  deriving DecidableEq, Repr

/-- The type `http.Header`, a `map[string][]string`, as an association list. -/
abbrev Header := List (String × List String)

/-- The table behind `validHeaderFieldByte` of `net/textproto`: the bytes of an
HTTP token, that is letters, digits and the punctuation
33, 35 to 39, 42, 43, 45, 46, 94, 95, 96, 124, 126. -/
def validHeaderFieldByte (c : Char) : Bool :=
  c.isAlphanum || decide (c.toNat ∈ [33, 35, 36, 37, 38, 39, 42, 43, 45, 46, 94, 95, 96, 124, 126])

/-- The rewriting loop of `canonicalMIMEHeaderKey`: the first letter and every
letter after a hyphen in upper case, every other letter in lower case. -/
def canonicalLoop : Bool → List Char → List Char
  | _, [] => []
  | upper, c :: cs =>
    let c1 := if upper then c.toUpper else c.toLower
    c1 :: canonicalLoop (c1 == '-') cs

/-- The function `textproto.CanonicalMIMEHeaderKey`: a key made of token bytes
only is rewritten to its canonical form, any other key is returned unchanged. -/
def CanonicalMIMEHeaderKey (s : String) : String :=
  if s.data.all validHeaderFieldByte then String.mk (canonicalLoop true s.data) else s

/-- The method `Header.Set(key, value)`: the entry of the canonical key becomes
the one-element slice `[value]`. -/
def Header.Set (h : Header) (key value : String) : Header :=
  (CanonicalMIMEHeaderKey key, [value]) ::
    h.filter (fun p => !decide (p.1 = CanonicalMIMEHeaderKey key))

/-- The value slice a header map holds under a key, `h[key]`. -/
def Header.values (h : Header) (key : String) : Option (List String) :=
  (h.find? (fun p => decide (p.1 = key))).map Prod.snd

/-- The function `strings.Join(elems, sep)`. -/
def stringsJoin (elems : List String) (sep : String) : String :=
  sep.intercalate elems

/-- What `ioutil.ReadAll` gets out of an `io.Reader`: the bytes read and the
read error, `none` when the reader ends with `io.EOF`. -/
structure Reader where
  data : List UInt8
  err : Option GoError

/-- The function `ioutil.ReadAll(r)`. -/
def ReadAll (r : Reader) : List UInt8 × Option GoError := (r.data, r.err)

/-- Modelled from the spec: the cache entry type of `internal/model`, which is
not among the sources, with the three fields `cacheMiddleware` reads: a status
code, a header multimap and a body reader. -/
structure Cache where
  StatusCode : Int
  Headers : Header
  Body : Reader

/-- The two methods of the `cache.Controller` interface that `cacheMiddleware`
calls.  `GetCache` returns `(cache, err)`; the entry is looked at only when
`err == nil`, so the pair is an `Except`. -/
structure CacheController where
  IsCacheableRequest : Request → Bool
  GetCache : Request → String → String → Except GoError Cache

/-- The fields of `Server` that `cacheMiddleware` uses, together with the package
function `getServiceKey` and the variable `model.ErrCacheNotFound`, neither of
which is among the sources. -/
structure Server where
  cacheController : CacheController
  getServiceKey : Request → String
  ErrCacheNotFound : ErrorVar

/-- What the handler built by `cacheMiddleware` does to its collaborators, in
program order. -/
inductive Effect where
  /-- The call `s.logger.Debug(msg)`. -/
  | logDebug (msg : String)
  /-- The call `s.logger.Error(err)`. -/
  | logError (err : GoError)
  /-- The call `next.ServeHTTP(w, r)`, on the handler's own `w`. -/
  | next (r : Request)
  /-- The call `w.Header().Set(key, value)`. -/
  | headerSet (key value : String)
  /-- The call `w.WriteHeader(code)`. -/
  | writeHeader (code : Int)
  /-- The call `w.Write(body)`. -/
  | write (body : List UInt8)

/-- An effect by which the handler itself writes to the response: a header, a
status or body bytes. -/
def Effect.isWrite : Effect → Bool
  | .headerSet _ _ => true
  | .writeHeader _ => true
  | .write _ => true
  | _ => false

/-- The requests the next handler was called with, in order. -/
def nextCalls : List Effect → List Request
  | [] => []
  | .next r :: es => r :: nextCalls es
  | _ :: es => nextCalls es

/-- The unexported method `Header.get(key)`: the first value stored under the
key as written, the empty string when there is none. -/
def Header.get (h : Header) (key : String) : String :=
  match h.values key with
  | some (v :: _) => v
  | _ => ""

/-- The method `Header.Del(key)`: the entry of the canonical key is removed. -/
def Header.Del (h : Header) (key : String) : Header :=
  h.filter (fun p => !decide (p.1 = CanonicalMIMEHeaderKey key))

/-- The digits loop of `strconv.ParseUint` in base 10: the value of a non-empty
run of decimal digits. -/
def parseDigits : List Char → Option Nat
  | [] => none
  | cs => if cs.all Char.isDigit then some (cs.foldl (fun n c => n * 10 + (c.toNat - 48)) 0)
          else none

/-- The function `strconv.ParseInt(s, 10, 64)`, `none` when it returns an error:
an optional sign, then decimal digits, the value within the range of `int64`. -/
def strconvParseInt (s : String) : Option Int :=
  match s.data with
  | [] => none
  | '+' :: cs => (parseDigits cs).bind (fun n => if n < 2 ^ 63 then some (n : Int) else none)
  | '-' :: cs => (parseDigits cs).bind (fun n => if n ≤ 2 ^ 63 then some (-(n : Int)) else none)
  | cs => (parseDigits cs).bind (fun n => if n < 2 ^ 63 then some (n : Int) else none)

/-- The length that `WriteHeader` of the net/http server takes from the header
`Content-Length`: the parsed value when the header is set, parses and is not
negative. -/
def declaredLength (h : Header) : Option Nat :=
  if h.get "Content-Length" = "" then none
  else
    match strconvParseInt (h.get "Content-Length") with
    | some v => if 0 ≤ v then some v.toNat else none
    | none => none

/-- The function `bodyAllowedForStatus` of net/http: no body goes with a 1xx,
a 204 or a 304 status. -/
def bodyAllowedForStatus (status : Int) : Bool :=
  if 100 ≤ status ∧ status ≤ 199 then false
  else if status = 204 then false
  else if status = 304 then false
  else true

/-- The `http.ResponseWriter` of the net/http server, as far as the status, the
headers handed over with it and the body are concerned: the header map
`w.Header()`; whether a final status is out, which one, and the header map as
it was then; the informational (1xx) statuses sent before it; the body bytes
sent; the declared content length and the count of bytes handed to `Write`;
whether the request is a HEAD request; and whether `WriteHeader` has panicked,
which aborts the handler, so that later calls on the writer change nothing. -/
structure ResponseWriter where
  header : Header
  wroteHeader : Bool
  status : Int
  sentHeader : Header
  body : List UInt8
  informational : List Int
  contentLength : Option Nat
  written : Nat
  isHead : Bool
  panicked : Bool

/-- A response writer of a request other than HEAD to which nothing has been
written. -/
def ResponseWriter.fresh : ResponseWriter :=
  ⟨[], false, 0, [], [], [], none, 0, false, false⟩

/-- The method `WriteHeader(code)` of the net/http server: a call after the
final status is ignored; a code outside 100..999 panics
(`checkWriteHeaderCode`); a 1xx code other than 101 is sent as an informational
response; any other code is the final status and goes out with the header map of
that moment, after which a `Content-Length` that is declared is either recorded
or, when it is invalid, deleted from the map. -/
def ResponseWriter.WriteHeader (w : ResponseWriter) (code : Int) : ResponseWriter :=
  if w.panicked then w
  else if w.wroteHeader then w
  else if code < 100 ∨ code > 999 then { w with panicked := true }
  else if 100 ≤ code ∧ code ≤ 199 ∧ code ≠ 101 then
    { w with informational := w.informational ++ [code] }
  else if w.header.get "Content-Length" = "" then
    { w with wroteHeader := true, status := code, sentHeader := w.header }
  else
    match declaredLength w.header with
    | some n =>
      { w with wroteHeader := true, status := code, sentHeader := w.header,
               contentLength := some n }
    | none =>
      { w with wroteHeader := true, status := code, sentHeader := w.header,
               header := w.header.Del "Content-Length" }

/-- The method `Write(b)` of the net/http server: it sends status 200 first when
no final status is out; no bytes are a no-op; bytes after a status that allows
no body are refused (`ErrBodyNotAllowed`); bytes beyond the declared content
length are refused (`ErrContentLength`); the bytes of the answer to a HEAD
request are dropped; other bytes are appended to the body. -/
def ResponseWriter.Write (w : ResponseWriter) (b : List UInt8) : ResponseWriter :=
  if w.panicked then w
  else
    let w1 := if w.wroteHeader then w else w.WriteHeader StatusOK
    if w1.panicked then w1
    else if b.length = 0 then w1
    else if !bodyAllowedForStatus w1.status then w1
    else
      let w2 := { w1 with written := w1.written + b.length }
      if (match w2.contentLength with
          | some n => decide (w2.written > n)
          | none => false) then w2
      else if w2.isHead then w2
      else { w2 with body := w2.body ++ b }

/-- The response writer after one effect; `next` is the handler behind the
`next` effect. -/
def ResponseWriter.step (next : ResponseWriter → Request → ResponseWriter)
    (w : ResponseWriter) : Effect → ResponseWriter
  | .logDebug _ => w
  | .logError _ => w
  | .next r => next w r
  | .headerSet key value =>
    if w.panicked then w else { w with header := w.header.Set key value }
  | .writeHeader code => w.WriteHeader code
  | .write b => w.Write b

/-- The response writer after a list of effects. -/
def ResponseWriter.run (next : ResponseWriter → Request → ResponseWriter)
    (w : ResponseWriter) (effects : List Effect) : ResponseWriter :=
  effects.foldl (ResponseWriter.step next) w

/-! ## `internal/http/error/error.go` -/

/-- What `Handle` does to its collaborators, in program order. -/
inductive HandleEffect where
  /-- The call `logger.Error(err)`. -/
  | logError (err : GoError)
  /-- The call `http.Error(w, text, code)`, by which net/http replies with the
  status `code` and the text `text` as a plain-text line. -/
  | httpError (text : String) (code : Int)

/-- The responses `http.Error` was asked to send, as (text, status) pairs. -/
def responses : List HandleEffect → List (String × Int)
  | [] => []
  | .httpError text code :: es => (text, code) :: responses es
  | .logError _ :: es => responses es

/-- One of the two `for _, e := range ... { if errors.Is(err, e) { http.Error(w,
e.Error(), code); return } }` loops of `Handle`: the effect of the first `e`
that matches, if any. -/
def handleLoop (err : GoError) (code : Int) : List ErrorVar → Option HandleEffect
  | [] => none
  | e :: es =>
    if errorsIs err e then some (.httpError e.Error code) else handleLoop err code es

/-- The function `Handle(err, w, logger)`. -/
def Handle (m : ModelErrors) (err : GoError) : List HandleEffect :=
  let badRequestErrors := [m.ErrInvalidDeleteCache]
  let notFoundErrors := [m.ErrCacheNotFound, ErrIngressNotFound]
  .logError err ::
    match handleLoop err StatusBadRequest badRequestErrors with
    | some eff => [eff]
    | none =>
      match handleLoop err StatusNotFound notFoundErrors with
      | some eff => [eff]
      | none => [.httpError "Internal server error" StatusInternalServerError]

/-- The (text, status) pair of the first condition of `Handle` that holds. -/
def handleChoice (m : ModelErrors) (err : GoError) : String × Int :=
  if errorsIs err m.ErrInvalidDeleteCache then (m.ErrInvalidDeleteCache.text, 400)
  else if errorsIs err m.ErrCacheNotFound then (m.ErrCacheNotFound.text, 404)
  else if errorsIs err ErrIngressNotFound then ("ingress not found", 404)
  else ("Internal server error", 500)

/-! ## `internal/http/middleware.go` -/

/-- The loop `for key, header := range cache.Headers { w.Header().Set(key,
strings.Join(header[:], ",")) }`. -/
def setHeaders : Header → List Effect
  | [] => []
  | (key, header) :: rest => .headerSet key (stringsJoin header ",") :: setHeaders rest

/-- The handler returned by `(s *Server) cacheMiddleware(next)`, run on the
request `r`. -/
def Server.cacheMiddleware (s : Server) (r : Request) : List Effect :=
  if !s.cacheController.IsCacheableRequest r then
    [.next r]
  else
    let serviceKey := s.getServiceKey r
    .logDebug "checking cache" ::
      match s.cacheController.GetCache r "" serviceKey with
      | .error err =>
        (if !errorsIs err s.ErrCacheNotFound then [.logError err] else []) ++ [.next r]
      | .ok cache =>
        .logDebug "cached response" ::
          match ReadAll cache.Body with
          | (_, some err) => [.logError err, .next r]
          | (bodyBytes, none) =>
            setHeaders cache.Headers ++ [.writeHeader cache.StatusCode, .write bodyBytes]

/-! ## `cmd/gotway/main.go` -/

/-- The fields of `cfg.Config` that `configureMiddlewares` reads:
`config.Cache.Enabled` and `config.GatewayTimeout`. -/
structure Config where
  CacheEnabled : Bool
  GatewayTimeout : Nat
  deriving DecidableEq, Repr

/-- The four interceptors `configureMiddlewares` can build, each with the value
of the `"middleware"` field of its logger:
`matchingressMw.New` (match-route), `cacheMw.NewCacheIn` (cache-read),
`gatewayMw.New` with its timeout (proxy-forward) and `cacheMw.NewCacheOut`
(cache-write).  The controllers handed to them are the same in every call. -/
inductive Middleware where
  | matchingress (logField : String)
  | cacheIn (logField : String)
  | gateway (timeout : Nat) (logField : String)
  | cacheOut (logField : String)
  deriving DecidableEq, Repr

/-- The interceptor is the match-route one. -/
def Middleware.isMatchRoute : Middleware → Bool
  | .matchingress _ => true
  | _ => false

/-- The interceptor is the cache-read one. -/
def Middleware.isCacheRead : Middleware → Bool
  | .cacheIn _ => true
  | _ => false

/-- The interceptor is the proxy-forward one. -/
def Middleware.isProxyForward : Middleware → Bool
  | .gateway _ _ => true
  | _ => false

/-- The interceptor is the cache-write one. -/
def Middleware.isCacheWrite : Middleware → Bool
  | .cacheOut _ => true
  | _ => false

/-- The function `configureMiddlewares(config, kubeCtrl, cacheController, logger)`. -/
def configureMiddlewares (config : Config) : List Middleware :=
  let middlewares := [Middleware.matchingress "match-service"]
  let middlewares :=
    if config.CacheEnabled then middlewares ++ [Middleware.cacheIn "cache-in"]
    else middlewares
  let middlewares := middlewares ++ [Middleware.gateway config.GatewayTimeout "gateway"]
  let middlewares :=
    if config.CacheEnabled then middlewares ++ [Middleware.cacheOut "cache-out"]
    else middlewares
  middlewares

/-! ## `pkg/kubernetes/controller/controller.go` -/

/-- The field `Status` of an `IngressHTTP`. -/
structure IngressHTTPStatus where
  IsServiceHealthy : Bool
  deriving DecidableEq, Repr

/-- Modelled from the spec: the resource type `crdv1alpha1.IngressHTTP`, which
is not among the sources: the name and namespace of its object metadata, its
specification (left uninterpreted) and its status. -/
structure IngressHTTP where
  Name : String
  Namespace : String
  Spec : String
  Status : IngressHTTPStatus
  deriving DecidableEq, Repr

/-- The zero value `crdv1alpha1.IngressHTTP{}`. -/
def IngressHTTP.zero : IngressHTTP := ⟨"", "", "", ⟨false⟩⟩

/-- An object stored in the informer's indexer: a `*crdv1alpha1.IngressHTTP`, or
a value of another type, given by its `%v` rendering. -/
inductive Obj where
  | ingress (i : IngressHTTP)
  | other (rendering : String)
  deriving DecidableEq, Repr

/-- The store behind `c.ingresshttpInformer.GetIndexer()`: keys and objects, in
the order in which `List()` returns them. -/
abbrev Index := List (String × Obj)

/-- The method `List()` of the indexer. -/
def Index.List (index : Index) : List Obj := index.map Prod.snd

/-- The method `GetByKey(key)` of the indexer, returning `(item, exists, err)`;
the store of client-go never returns an error here. -/
def Index.GetByKey (index : Index) (key : String) : Except GoError (Option Obj) :=
  .ok ((index.find? (fun p => decide (p.1 = key))).map Prod.snd)

/-- The store after an assignment through the pointer stored under `key`. -/
def Index.assign (key : String) (obj : Obj) : Index → Index
  | [] => []
  | (k, o) :: rest => if k = key then (k, obj) :: rest else (k, o) :: Index.assign key obj rest

/-- The function `cache.MetaNamespaceKeyFunc` on a `*IngressHTTP`:
`namespace/name`, or `name` alone when the namespace is empty. -/
def MetaNamespaceKeyFunc (ingress : IngressHTTP) : Except GoError String :=
  .ok (if ingress.Namespace.length > 0 then ingress.Namespace ++ "/" ++ ingress.Name
       else ingress.Name)

/-- What a method of `Controller` does to its mutex, its logger and the stored
objects, in program order. -/
inductive CtrlEffect where
  /-- The call `c.ingressMux.RLock()`. -/
  | rLock
  /-- The deferred call `c.ingressMux.RUnlock()`. -/
  | rUnlock
  /-- The call `c.ingressMux.Lock()`. -/
  | lock
  /-- The deferred call `c.ingressMux.Unlock()`. -/
  | unlock
  /-- The call `c.logger.Error(msg)`. -/
  | logError (msg : String)
  /-- The assignment `i.Status.IsServiceHealthy = healthy` to the object stored
  under `key`. -/
  | setHealthy (key : String) (healthy : Bool)
  deriving DecidableEq, Repr

/-- The type `IngressMatcher`. -/
abbrev IngressMatcher := IngressHTTP → Bool

/-- The loop of `FindIngress` over `List()`: the returned pair and the errors
logged on the way. -/
def findIngressLoop (matchFn : IngressMatcher) :
    List Obj → (IngressHTTP × Option GoError) × List CtrlEffect
  | [] => ((IngressHTTP.zero, some (.var ErrIngressNotFound)), [])
  | .ingress ingress :: rest =>
    if matchFn ingress then ((ingress, none), []) else findIngressLoop matchFn rest
  | .other rendering :: rest =>
    let (res, log) := findIngressLoop matchFn rest
    (res, .logError ("unexpected object " ++ rendering) :: log)

/-- The method `(c *Controller) FindIngress(matchFn)`: the returned pair and the
effects. -/
def FindIngress (index : Index) (matchFn : IngressMatcher) :
    (IngressHTTP × Option GoError) × List CtrlEffect :=
  let (res, log) := findIngressLoop matchFn index.List
  (res, [.rLock] ++ log ++ [.rUnlock])

/-- The outcome of `UpdateIngressStatus`: the store afterwards, the returned
error and the effects. -/
structure UpdateResult where
  index : Index
  err : Option GoError
  effects : List CtrlEffect

/-- The method `(c *Controller) UpdateIngressStatus(ctx, ingress, healthy)`. -/
def UpdateIngressStatus (index : Index) (ingress : IngressHTTP) (healthy : Bool) :
    UpdateResult :=
  if ingress.Status.IsServiceHealthy = healthy then
    ⟨index, none, []⟩
  else
    match MetaNamespaceKeyFunc ingress with
    | .error err => ⟨index, some err, [.lock, .unlock]⟩
    | .ok key =>
      match index.GetByKey key with
      | .error err => ⟨index, some err, [.lock, .unlock]⟩
      | .ok none =>
        ⟨index, some (.errorf ("ingress " ++ ingress.Name ++ " not found")), [.lock, .unlock]⟩
      | .ok (some (.other rendering)) =>
        ⟨index, some (.errorf ("unexpected object " ++ rendering)), [.lock, .unlock]⟩
      | .ok (some (.ingress i)) =>
        ⟨index.assign key (.ingress { i with Status := ⟨healthy⟩ }), none,
          [.lock, .setHealthy key healthy, .unlock]⟩

/-! ## `internal/cache`: `CacheInvalidation` -/

/-- A Go slice value: `none` is the nil slice. -/
abbrev Slice (α : Type) := Option (List α)

/-- The builtin `len` on a slice. -/
def Slice.len {α : Type} : Slice α → Nat
  | none => 0
  | some l => l.length

/-- The type `CachePath` of the tests. -/
structure CachePath where
  Service : String
  Path : String
  deriving DecidableEq, Repr

/-- The type `CacheInvalidation` of the tests. -/
structure CacheInvalidation where
  Paths : Slice CachePath
  Tags : Slice String
  deriving DecidableEq, Repr

/-- Modelled from the spec: the method `CacheInvalidation.Validate` of
`internal/cache`, of which only the test is among the sources.  A request with
both paths and tags empty, or both populated, is rejected with the variable
`ErrInvalidDeleteCache` of that package; any other request is accepted. -/
def CacheInvalidation.Validate (ErrInvalidDeleteCache : ErrorVar) (d : CacheInvalidation) :
    Option GoError :=
  if Slice.len d.Paths = 0 ∧ Slice.len d.Tags = 0 then some (.var ErrInvalidDeleteCache)
  else if Slice.len d.Paths > 0 ∧ Slice.len d.Tags > 0 then some (.var ErrInvalidDeleteCache)
  else none

/-! ## Auxiliary definitions and concrete inputs -/

/-- The header map after the loop of `cacheMiddleware` over the stored headers
`hs`, starting from the map `h`. -/
def applyHeaders (h : Header) (hs : Header) : Header :=
  hs.foldl (fun acc p => acc.Set p.1 (stringsJoin p.2 ",")) h

/-- The canonical forms of the keys of a header map. -/
def canonicalKeys (hs : Header) : List String :=
  hs.map (fun p => CanonicalMIMEHeaderKey p.1)

/-- A request. -/
def exampleRequest : Request := ⟨"GET", "shop.example", "/products"⟩

/-- A cache entry whose body reader fails after one byte. -/
def unreadableEntry : Cache :=
  ⟨200, [("Content-Type", ["text/plain"])], ⟨[104], some (.errorf "unexpected EOF")⟩⟩

/-- A cache entry with a header of two values. -/
def variedEntry : Cache :=
  ⟨200, [("Vary", ["Accept", "Origin"])], ⟨[104, 105], none⟩⟩

/-- A cache entry stored with the status code 0 and a body of one byte. -/
def statuslessEntry : Cache :=
  ⟨0, [], ⟨[104], none⟩⟩

/-- A cache entry stored with the status 204 and a body of one byte. -/
def noContentEntry : Cache :=
  ⟨204, [], ⟨[104], none⟩⟩

/-- A response writer that has sent nothing yet: no final status, no panic, no
declared content length, no bytes handed to `Write`, no body. -/
def ResponseWriter.pristine (w : ResponseWriter) : Bool :=
  !w.wroteHeader && !w.panicked && w.contentLength.isNone && decide (w.written = 0) &&
    w.body.isEmpty

/-- The calls of `w.Header().Set`, `w.WriteHeader` and `w.Write` among the
effects, in order. -/
def writeCalls (effects : List Effect) : List Effect :=
  effects.filter Effect.isWrite

/-- A server for which every request is cacheable and `GetCache` returns the
given entry. -/
def serverWith (entry : Cache) : Server :=
  ⟨⟨fun _ => true, fun _ _ _ => .ok entry⟩, fun _ => "catalog",
    ⟨"model", "ErrCacheNotFound", "Cache not found"⟩⟩

/-- A server for which every request is cacheable and `GetCache` fails with the
given error. -/
def serverFailing (err : GoError) : Server :=
  ⟨⟨fun _ => true, fun _ _ _ => .error err⟩, fun _ => "catalog",
    ⟨"model", "ErrCacheNotFound", "Cache not found"⟩⟩

/-- A rule of the service `web`, stored as unhealthy. -/
def webRule : IngressHTTP := ⟨"web", "default", "host: shop.example", ⟨false⟩⟩

/-- An index holding `webRule` under its key. -/
def webIndex : Index := [("default/web", .ingress webRule)]

/-- A copy of the rule of the service `web` that carries the status healthy. -/
def staleWebRule : IngressHTTP := ⟨"web", "default", "host: shop.example", ⟨true⟩⟩

/-- A second rule for the same host as `webRule`. -/
def shadowRule : IngressHTTP := ⟨"web-canary", "default", "host: shop.example", ⟨true⟩⟩

/-- An index with a stray object followed by two rules for the same host. -/
def overlapIndex : Index :=
  [("default/stray", .other "tombstone"), ("default/web", .ingress webRule),
    ("default/web-canary", .ingress shadowRule)]

/-- A matcher on the specification of a rule. -/
def hostMatcher : IngressMatcher := fun i => decide (i.Spec = "host: shop.example")

/-! ## Properties of `Handle` -/

theorem errorsIs_var_self (v : ErrorVar) : errorsIs (.var v) v = true := by
  simp [errorsIs]

theorem Handle_eq (m : ModelErrors) (err : GoError) :
    Handle m err =
      [.logError err, .httpError (handleChoice m err).1 (handleChoice m err).2] := by
  unfold Handle handleChoice
  by_cases h1 : errorsIs err m.ErrInvalidDeleteCache = true
  · simp [handleLoop, h1, ErrorVar.Error, StatusBadRequest]
  · by_cases h2 : errorsIs err m.ErrCacheNotFound = true
    · simp [handleLoop, h1, h2, ErrorVar.Error, StatusNotFound]
    · by_cases h3 : errorsIs err ErrIngressNotFound = true
      · simp only [handleLoop, h1, h2, h3, ErrorVar.Error, StatusNotFound]
        simp
        rfl
      · simp [handleLoop, h1, h2, h3, StatusInternalServerError]

/-- C1: for every error, `Handle` logs the error and then sends exactly one
response, chosen first-match-wins: 400 when the error is or wraps
`ErrInvalidDeleteCache`; otherwise 404 when it is or wraps `ErrCacheNotFound`;
otherwise 404 with text "ingress not found" when it is or wraps
`ErrIngressNotFound`; otherwise 500 with text "Internal server error".  An error
wrapping both `ErrInvalidDeleteCache` and `ErrCacheNotFound` is answered 400,
and an error equal to one of the three variables is never answered 500. -/
theorem Handle_first_match_wins (m : ModelErrors) (err : GoError) :
    (responses (Handle m err) =
      [if errorsIs err m.ErrInvalidDeleteCache then (m.ErrInvalidDeleteCache.text, 400)
       else if errorsIs err m.ErrCacheNotFound then (m.ErrCacheNotFound.text, 404)
       else if errorsIs err ErrIngressNotFound then ("ingress not found", 404)
       else ("Internal server error", 500)]) ∧
    (Handle m err).head? = some (.logError err) ∧
    (errorsIs err m.ErrInvalidDeleteCache = true → errorsIs err m.ErrCacheNotFound = true →
      responses (Handle m err) = [(m.ErrInvalidDeleteCache.text, 400)]) ∧
    (err = .var m.ErrInvalidDeleteCache ∨ err = .var m.ErrCacheNotFound ∨
        err = .var ErrIngressNotFound →
      ∀ p ∈ responses (Handle m err), p.2 = 400 ∨ p.2 = 404) := by
  have hr : responses (Handle m err) = [handleChoice m err] := by
    rw [Handle_eq]; simp [responses]
  refine ⟨by rw [hr]; rfl, by rw [Handle_eq]; rfl, ?_, ?_⟩
  · intro h1 _
    rw [hr]; simp [handleChoice, h1]
  · intro h p hp
    rw [hr] at hp
    simp only [List.mem_singleton] at hp
    subst hp
    rcases h with h | h | h <;> subst h <;> unfold handleChoice <;>
      simp only [errorsIs_var_self] <;> split_ifs <;> simp

/-- C1, at a concrete error: `errors.Join` of a wrapped `ErrCacheNotFound` and
`ErrInvalidDeleteCache` is answered 400 with the text of the latter. -/
theorem Handle_first_match_wins_witness :
    responses (Handle ⟨⟨"model", "ErrInvalidDeleteCache", "invalid delete"⟩,
        ⟨"model", "ErrCacheNotFound", "Cache not found"⟩⟩
      (.join [.wrap "get: Cache not found"
                (.var ⟨"model", "ErrCacheNotFound", "Cache not found"⟩),
              .var ⟨"model", "ErrInvalidDeleteCache", "invalid delete"⟩])) =
      [("invalid delete", 400)] :=
  (Handle_first_match_wins _ _).2.2.1 (by simp [errorsIs, errorsIsAny])
    (by simp [errorsIs, errorsIsAny])

/-! ## Properties of `CacheInvalidation.Validate` -/

/-- C2: `Validate` returns nil exactly when one of paths and tags is non-empty
and the other empty (a nil slice counting as empty); when both are empty or both
non-empty it returns exactly `ErrInvalidDeleteCache`.  The three cases of
`TestDeleteValidate` are instances. -/
theorem Validate_iff_exactly_one (E : ErrorVar) (d : CacheInvalidation) :
    (d.Validate E = none ↔
      (0 < Slice.len d.Paths ∧ Slice.len d.Tags = 0) ∨
        (Slice.len d.Paths = 0 ∧ 0 < Slice.len d.Tags)) ∧
    ((Slice.len d.Paths = 0 ∧ Slice.len d.Tags = 0) ∨
        (0 < Slice.len d.Paths ∧ 0 < Slice.len d.Tags) →
      d.Validate E = some (.var E)) ∧
    CacheInvalidation.Validate E ⟨some [], some []⟩ = some (.var E) ∧
    CacheInvalidation.Validate E ⟨none, none⟩ = some (.var E) ∧
    CacheInvalidation.Validate E ⟨some [⟨"catalog", "/products"⟩], some ["catalog"]⟩ =
      some (.var E) ∧
    CacheInvalidation.Validate E ⟨none, some ["catalog"]⟩ = none := by
  refine ⟨?_, ?_, by simp [CacheInvalidation.Validate, Slice.len],
    by simp [CacheInvalidation.Validate, Slice.len],
    by simp [CacheInvalidation.Validate, Slice.len],
    by simp [CacheInvalidation.Validate, Slice.len]⟩
  · unfold CacheInvalidation.Validate
    split_ifs with h1 h2
    · simp only [reduceCtorEq, false_iff]; omega
    · simp only [reduceCtorEq, false_iff]; omega
    · simp only [true_iff]; omega
  · intro h
    unfold CacheInvalidation.Validate
    split_ifs with h1 h2
    · rfl
    · rfl
    · omega

/-! ## Properties of `configureMiddlewares` -/

/-- C6: `configureMiddlewares` returns match-route, cache-read, proxy-forward,
cache-write, in this order, when caching is enabled, and match-route,
proxy-forward when it is disabled; so match-route is first, proxy-forward occurs
once, and cache-read and cache-write occur exactly when caching is enabled,
cache-read right before and cache-write right after proxy-forward. -/
theorem configureMiddlewares_order (config : Config) :
    configureMiddlewares config =
      (if config.CacheEnabled then
        [.matchingress "match-service", .cacheIn "cache-in",
          .gateway config.GatewayTimeout "gateway", .cacheOut "cache-out"]
      else [.matchingress "match-service", .gateway config.GatewayTimeout "gateway"]) ∧
    (configureMiddlewares config).length = (if config.CacheEnabled then 4 else 2) ∧
    ((configureMiddlewares config).head?.map Middleware.isMatchRoute = some true) ∧
    (configureMiddlewares config).countP Middleware.isMatchRoute = 1 ∧
    (configureMiddlewares config).countP Middleware.isProxyForward = 1 ∧
    ((configureMiddlewares config).any Middleware.isCacheRead = config.CacheEnabled) ∧
    ((configureMiddlewares config).any Middleware.isCacheWrite = config.CacheEnabled) ∧
    (configureMiddlewares config).countP Middleware.isCacheRead ≤ 1 ∧
    (configureMiddlewares config).countP Middleware.isCacheWrite ≤ 1 ∧
    (config.CacheEnabled = true →
      ((configureMiddlewares config).map
          (fun m => (m.isMatchRoute, m.isCacheRead, m.isProxyForward, m.isCacheWrite))) =
        [(true, false, false, false), (false, true, false, false),
          (false, false, true, false), (false, false, false, true)]) := by
  rcases config with ⟨enabled, timeout⟩
  cases enabled <;>
    simp [configureMiddlewares, Middleware.isMatchRoute, Middleware.isCacheRead,
      Middleware.isProxyForward, Middleware.isCacheWrite, List.countP_cons]

/-! ## Properties of `FindIngress` -/

theorem FindIngress_fst (index : Index) (matchFn : IngressMatcher) :
    (FindIngress index matchFn).1 = (findIngressLoop matchFn index.List).1 := by
  simp [FindIngress]

theorem findIngressLoop_first (matchFn : IngressMatcher) (r : IngressHTTP) :
    ∀ (pre post : List Obj), matchFn r = true →
      (∀ i, Obj.ingress i ∈ pre → matchFn i = false) →
      (findIngressLoop matchFn (pre ++ Obj.ingress r :: post)).1 = (r, none) := by
  intro pre
  induction pre with
  | nil => intro post hr _; simp [findIngressLoop, hr]
  | cons o pre ih =>
    intro post hr hpre
    have ih1 := ih post hr (fun i hi => hpre i (List.mem_cons_of_mem _ hi))
    cases o with
    | ingress i =>
      have hi : matchFn i = false := hpre i (List.mem_cons_self _ _)
      simpa [findIngressLoop, hi] using ih1
    | other s => simpa [findIngressLoop] using ih1

theorem findIngressLoop_none (matchFn : IngressMatcher) :
    ∀ (objs : List Obj), (∀ i, Obj.ingress i ∈ objs → matchFn i = false) →
      (findIngressLoop matchFn objs).1 = (IngressHTTP.zero, some (.var ErrIngressNotFound)) := by
  intro objs
  induction objs with
  | nil => intro _; rfl
  | cons o objs ih =>
    intro h
    have ih1 := ih (fun i hi => h i (List.mem_cons_of_mem _ hi))
    cases o with
    | ingress i =>
      have hi : matchFn i = false := h i (List.mem_cons_self _ _)
      simpa [findIngressLoop, hi] using ih1
    | other s => simpa [findIngressLoop] using ih1

theorem findIngressLoop_found (matchFn : IngressMatcher) :
    ∀ (objs : List Obj), (findIngressLoop matchFn objs).1.2 = none →
      ∃ pre post, objs = pre ++ Obj.ingress (findIngressLoop matchFn objs).1.1 :: post ∧
        matchFn (findIngressLoop matchFn objs).1.1 = true ∧
        ∀ i, Obj.ingress i ∈ pre → matchFn i = false := by
  intro objs
  induction objs with
  | nil => intro h; simp [findIngressLoop] at h
  | cons o objs ih =>
    intro h
    cases o with
    | ingress i =>
      by_cases hi : matchFn i = true
      · refine ⟨[], objs, ?_, ?_, ?_⟩
        · simp [findIngressLoop, hi]
        · simp [findIngressLoop, hi]
        · intro j hj; simp at hj
      · have hi1 : matchFn i = false := by simpa using hi
        have e : findIngressLoop matchFn (Obj.ingress i :: objs) =
            findIngressLoop matchFn objs := by simp [findIngressLoop, hi1]
        rw [e] at h ⊢
        obtain ⟨pre, post, h1, h2, h3⟩ := ih h
        refine ⟨Obj.ingress i :: pre, post, by rw [List.cons_append, ← h1], h2, ?_⟩
        intro j hj
        rcases List.mem_cons.1 hj with hj | hj
        · cases hj; exact hi1
        · exact h3 j hj
    | other s =>
      have e : (findIngressLoop matchFn (Obj.other s :: objs)).1 =
          (findIngressLoop matchFn objs).1 := by simp [findIngressLoop]
      rw [e] at h ⊢
      obtain ⟨pre, post, h1, h2, h3⟩ := ih h
      refine ⟨Obj.other s :: pre, post, by rw [List.cons_append, ← h1], h2, ?_⟩
      intro j hj
      rcases List.mem_cons.1 hj with hj | hj
      · cases hj
      · exact h3 j hj

/-- C3: `FindIngress` returns, with a nil error, the first rule in the order of
`List()` that satisfies `matchFn` when there is one, and the zero rule with
`ErrIngressNotFound` when no rule satisfies it; whenever the error is nil the
returned rule is an element of the index that satisfies `matchFn` and no rule
before it does. -/
theorem FindIngress_first_match (index : Index) (matchFn : IngressMatcher) :
    (∀ (pre post : List Obj) (r : IngressHTTP), index.List = pre ++ Obj.ingress r :: post →
      matchFn r = true → (∀ i, Obj.ingress i ∈ pre → matchFn i = false) →
      (FindIngress index matchFn).1 = (r, none)) ∧
    ((∀ i, Obj.ingress i ∈ index.List → matchFn i = false) →
      (FindIngress index matchFn).1 = (IngressHTTP.zero, some (.var ErrIngressNotFound))) ∧
    ((FindIngress index matchFn).1.2 = none →
      ∃ pre post, index.List = pre ++ Obj.ingress (FindIngress index matchFn).1.1 :: post ∧
        matchFn (FindIngress index matchFn).1.1 = true ∧
        ∀ i, Obj.ingress i ∈ pre → matchFn i = false) := by
  rw [FindIngress_fst]
  refine ⟨?_, findIngressLoop_none matchFn _, findIngressLoop_found matchFn _⟩
  intro pre post r h hr hpre
  rw [h]
  exact findIngressLoop_first matchFn r pre post hr hpre

/-- C3, at a concrete input: of two rules for the same host, the one that comes
first in the index is returned. -/
theorem FindIngress_first_match_witness :
    (FindIngress overlapIndex hostMatcher).1 = (webRule, none) :=
  (FindIngress_first_match overlapIndex hostMatcher).1 [.other "tombstone"]
    [.ingress shadowRule] webRule rfl (by decide) (by intro i hi; simp at hi)

/-! ## Properties of `cacheMiddleware` -/

theorem nextCalls_append (xs ys : List Effect) :
    nextCalls (xs ++ ys) = nextCalls xs ++ nextCalls ys := by
  induction xs with
  | nil => rfl
  | cons x xs ih => cases x <;> simp [nextCalls, ih]

theorem nextCalls_setHeaders (hs : Header) : nextCalls (setHeaders hs) = [] := by
  induction hs with
  | nil => rfl
  | cons p hs ih => rcases p with ⟨k, vs⟩; simpa [setHeaders, nextCalls] using ih

theorem cacheMiddleware_hit (s : Server) (r : Request) (cache : Cache)
    (hc : s.cacheController.IsCacheableRequest r = true)
    (hg : s.cacheController.GetCache r "" (s.getServiceKey r) = .ok cache)
    (hb : cache.Body.err = none) :
    s.cacheMiddleware r =
      .logDebug "checking cache" :: .logDebug "cached response" ::
        (setHeaders cache.Headers ++ [.writeHeader cache.StatusCode, .write cache.Body.data]) := by
  unfold Server.cacheMiddleware
  simp only [hc, hg, ReadAll, hb]
  rfl

theorem cacheMiddleware_get_error (s : Server) (r : Request) (err : GoError)
    (hc : s.cacheController.IsCacheableRequest r = true)
    (hg : s.cacheController.GetCache r "" (s.getServiceKey r) = .error err) :
    s.cacheMiddleware r =
      .logDebug "checking cache" ::
        ((if !errorsIs err s.ErrCacheNotFound then [Effect.logError err] else []) ++
          [.next r]) := by
  unfold Server.cacheMiddleware
  simp only [hc, hg]
  rfl

theorem cacheMiddleware_read_error (s : Server) (r : Request) (cache : Cache) (err : GoError)
    (hc : s.cacheController.IsCacheableRequest r = true)
    (hg : s.cacheController.GetCache r "" (s.getServiceKey r) = .ok cache)
    (hb : cache.Body.err = some err) :
    s.cacheMiddleware r =
      [.logDebug "checking cache", .logDebug "cached response", .logError err, .next r] := by
  unfold Server.cacheMiddleware
  simp only [hc, hg, ReadAll, hb]
  rfl

/-- C4, as amended: for a cacheable request for which `GetCache` returns an entry
without error and the body of the entry is read without error, the handler of
`cacheMiddleware` does not call the next handler. -/
theorem cacheMiddleware_hit_skips_next (s : Server) (r : Request) (cache : Cache)
    (hc : s.cacheController.IsCacheableRequest r = true)
    (hg : s.cacheController.GetCache r "" (s.getServiceKey r) = .ok cache)
    (hb : cache.Body.err = none) :
    nextCalls (s.cacheMiddleware r) = [] := by
  rw [cacheMiddleware_hit s r cache hc hg hb]
  simp [nextCalls, nextCalls_append, nextCalls_setHeaders]

/-- C5: the handler of `cacheMiddleware` fails open.  For a request that is not
cacheable, and for a cacheable request for which `GetCache` returns an error,
it calls the next handler once, with the request it was given and with the
response writer as it received it, and writes no header, status or body itself;
and on no request does it call the next handler more than once. -/
theorem cacheMiddleware_fails_open (s : Server) (r : Request) :
    (s.cacheController.IsCacheableRequest r = false → s.cacheMiddleware r = [.next r]) ∧
    (∀ err, s.cacheController.IsCacheableRequest r = true →
      s.cacheController.GetCache r "" (s.getServiceKey r) = .error err →
      nextCalls (s.cacheMiddleware r) = [r] ∧
      (∀ e ∈ s.cacheMiddleware r, e.isWrite = false) ∧
      (∀ next w, ResponseWriter.run next w (s.cacheMiddleware r) = next w r)) ∧
    (nextCalls (s.cacheMiddleware r)).length ≤ 1 := by
  refine ⟨?_, ?_, ?_⟩
  · intro hc
    simp [Server.cacheMiddleware, hc]
  · intro err hc hg
    rw [cacheMiddleware_get_error s r err hc hg]
    by_cases he : errorsIs err s.ErrCacheNotFound = true
    · simp [he, nextCalls, Effect.isWrite, ResponseWriter.run, ResponseWriter.step]
    · simp [he, nextCalls, Effect.isWrite, ResponseWriter.run, ResponseWriter.step]
  · by_cases hc : s.cacheController.IsCacheableRequest r = true
    · cases hg : s.cacheController.GetCache r "" (s.getServiceKey r) with
      | error err =>
        rw [cacheMiddleware_get_error s r err hc hg]
        by_cases he : errorsIs err s.ErrCacheNotFound = true <;> simp [he, nextCalls]
      | ok cache =>
        cases hb : cache.Body.err with
        | none =>
          rw [cacheMiddleware_hit s r cache hc hg hb]
          simp [nextCalls, nextCalls_append, nextCalls_setHeaders]
        | some err =>
          rw [cacheMiddleware_read_error s r cache err hc hg hb]
          simp [nextCalls]
    · have hc1 : s.cacheController.IsCacheableRequest r = false := by simpa using hc
      simp [Server.cacheMiddleware, hc1, nextCalls]

/-- C4, as stated, fails: every request is cacheable for `serverWith
unreadableEntry` and `GetCache` returns an entry without error, yet the next
handler is called, because reading the body of the entry fails. -/
theorem cacheMiddleware_hit_calls_next_on_read_error :
    (serverWith unreadableEntry).cacheController.IsCacheableRequest exampleRequest = true ∧
    (serverWith unreadableEntry).cacheController.GetCache exampleRequest ""
        ((serverWith unreadableEntry).getServiceKey exampleRequest) = .ok unreadableEntry ∧
    nextCalls ((serverWith unreadableEntry).cacheMiddleware exampleRequest) =
      [exampleRequest] := by
  refine ⟨rfl, rfl, ?_⟩
  rw [cacheMiddleware_read_error (serverWith unreadableEntry) exampleRequest unreadableEntry
    (.errorf "unexpected EOF") rfl rfl rfl]
  rfl

/-- C4, as amended, at a concrete input: the entry `variedEntry` is served
without a call of the next handler. -/
theorem cacheMiddleware_hit_skips_next_witness :
    nextCalls ((serverWith variedEntry).cacheMiddleware exampleRequest) = [] :=
  cacheMiddleware_hit_skips_next (serverWith variedEntry) exampleRequest variedEntry
    rfl rfl rfl

/-- C5, at a concrete input: when `GetCache` fails with a store error the next
handler is called once, with the request. -/
theorem cacheMiddleware_fails_open_witness :
    nextCalls ((serverFailing (.errorf "dial tcp: connection refused")).cacheMiddleware
      exampleRequest) = [exampleRequest] :=
  ((cacheMiddleware_fails_open (serverFailing (.errorf "dial tcp: connection refused"))
    exampleRequest).2.1 (.errorf "dial tcp: connection refused") rfl rfl).1

/-! ### The response written on a cache hit -/

theorem values_Set_self (h : Header) (key value : String) :
    (h.Set key value).values (CanonicalMIMEHeaderKey key) = some [value] := by
  simp [Header.Set, Header.values]

theorem values_filter_ne (h : Header) (k c : String) (hc : c ≠ k) :
    Header.values (h.filter (fun p => !decide (p.1 = k))) c = Header.values h c := by
  induction h with
  | nil => rfl
  | cons p h ih =>
    unfold Header.values at ih ⊢
    rcases p with ⟨pk, pv⟩
    by_cases hp : pk = k
    · have hpc : ¬ pk = c := fun e => hc (e ▸ hp)
      have e1 : List.filter (fun p : String × List String => !decide (p.1 = k)) ((pk, pv) :: h) =
          List.filter (fun p => !decide (p.1 = k)) h := by
        rw [List.filter_cons]; simp only [hp, decide_True, Bool.not_true]; rfl
      have e2 : List.find? (fun p : String × List String => decide (p.1 = c)) ((pk, pv) :: h) =
          List.find? (fun p => decide (p.1 = c)) h := by
        rw [List.find?_cons]; simp only [hpc, decide_False]
      rw [e1, e2, ih]
    · have e1 : List.filter (fun p : String × List String => !decide (p.1 = k)) ((pk, pv) :: h) =
          (pk, pv) :: List.filter (fun p => !decide (p.1 = k)) h := by
        rw [List.filter_cons]; simp only [hp, decide_False, Bool.not_false]; rfl
      rw [e1, List.find?_cons, List.find?_cons]
      by_cases hpc : pk = c
      · simp only [hpc, decide_True]
      · simp only [hpc, decide_False]
        exact ih

theorem values_Set_other (h : Header) (key value c : String)
    (hc : c ≠ CanonicalMIMEHeaderKey key) :
    (h.Set key value).values c = h.values c := by
  have h1 := values_filter_ne h (CanonicalMIMEHeaderKey key) c hc
  unfold Header.values at h1 ⊢
  unfold Header.Set
  rw [List.find?_cons]
  have hne : ¬ CanonicalMIMEHeaderKey key = c := fun e => hc e.symm
  simp only [hne, decide_False]
  exact h1

theorem applyHeaders_cons (h : Header) (p : String × List String) (hs : Header) :
    applyHeaders h (p :: hs) = applyHeaders (h.Set p.1 (stringsJoin p.2 ",")) hs := rfl

theorem applyHeaders_frame (hs : Header) :
    ∀ (h : Header) (c : String), c ∉ canonicalKeys hs →
      (applyHeaders h hs).values c = h.values c := by
  induction hs with
  | nil => intro h c _; rfl
  | cons p hs ih =>
    intro h c hc
    simp only [canonicalKeys, List.map_cons, List.mem_cons, not_or] at hc
    rw [applyHeaders_cons, ih _ c hc.2, values_Set_other h p.1 _ c hc.1]

theorem applyHeaders_stored (hs : Header) :
    ∀ (h : Header), (canonicalKeys hs).Nodup → ∀ p ∈ hs,
      (applyHeaders h hs).values (CanonicalMIMEHeaderKey p.1) =
        some [stringsJoin p.2 ","] := by
  induction hs with
  | nil => intro h _ p hp; simp at hp
  | cons q hs ih =>
    intro h hnd p hp
    simp only [canonicalKeys, List.map_cons, List.nodup_cons] at hnd
    rw [applyHeaders_cons]
    rcases List.mem_cons.1 hp with hp | hp
    · subst hp
      rw [applyHeaders_frame hs _ _ hnd.1, values_Set_self]
    · exact ih _ hnd.2 p hp

theorem run_append (next : ResponseWriter → Request → ResponseWriter) (w : ResponseWriter)
    (xs ys : List Effect) :
    ResponseWriter.run next w (xs ++ ys) =
      ResponseWriter.run next (ResponseWriter.run next w xs) ys := by
  simp [ResponseWriter.run, List.foldl_append]

theorem run_setHeaders (next : ResponseWriter → Request → ResponseWriter) (hs : Header) :
    ∀ (w : ResponseWriter), w.panicked = false →
      ResponseWriter.run next w (setHeaders hs) =
        { w with header := applyHeaders w.header hs } := by
  induction hs with
  | nil => intro w _; rfl
  | cons p hs ih =>
    intro w hp
    rcases p with ⟨k, vs⟩
    have e : ResponseWriter.run next w (setHeaders ((k, vs) :: hs)) =
        ResponseWriter.run next { w with header := w.header.Set k (stringsJoin vs ",") }
          (setHeaders hs) := by
      simp [setHeaders, ResponseWriter.run, ResponseWriter.step, hp]
    rw [e]
    exact ih { w with header := w.header.Set k (stringsJoin vs ",") } hp

theorem run_hit (next : ResponseWriter → Request → ResponseWriter) (s : Server) (r : Request)
    (cache : Cache) (w : ResponseWriter)
    (hc : s.cacheController.IsCacheableRequest r = true)
    (hg : s.cacheController.GetCache r "" (s.getServiceKey r) = .ok cache)
    (hb : cache.Body.err = none) (hp : w.panicked = false) :
    ResponseWriter.run next w (s.cacheMiddleware r) =
      (ResponseWriter.WriteHeader { w with header := applyHeaders w.header cache.Headers }
        cache.StatusCode).Write cache.Body.data := by
  rw [cacheMiddleware_hit s r cache hc hg hb]
  have e : (Effect.logDebug "checking cache" :: Effect.logDebug "cached response" ::
      (setHeaders cache.Headers ++
        [Effect.writeHeader cache.StatusCode, Effect.write cache.Body.data])) =
      [Effect.logDebug "checking cache", Effect.logDebug "cached response"] ++
        (setHeaders cache.Headers ++
          [Effect.writeHeader cache.StatusCode, Effect.write cache.Body.data]) := rfl
  have e0 : ResponseWriter.run next w
      [Effect.logDebug "checking cache", Effect.logDebug "cached response"] = w := rfl
  rw [e, run_append, run_append, e0, run_setHeaders next _ w hp]
  rfl

theorem writeCalls_setHeaders (hs : Header) (rest : List Effect) :
    writeCalls (setHeaders hs ++ rest) =
      hs.map (fun p => Effect.headerSet p.1 (stringsJoin p.2 ",")) ++ writeCalls rest := by
  induction hs with
  | nil => rfl
  | cons p hs ih =>
    rcases p with ⟨k, vs⟩
    unfold writeCalls at ih ⊢
    simp [setHeaders, List.filter_cons, Effect.isWrite, ih]

theorem WriteHeader_final (w : ResponseWriter) (code : Int)
    (hp : w.panicked = false) (hw : w.wroteHeader = false)
    (h1 : 200 ≤ code) (h2 : code ≤ 999) :
    (w.WriteHeader code).wroteHeader = true ∧ (w.WriteHeader code).status = code ∧
    (w.WriteHeader code).sentHeader = w.header ∧ (w.WriteHeader code).body = w.body ∧
    (w.WriteHeader code).panicked = false ∧ (w.WriteHeader code).written = w.written ∧
    (w.WriteHeader code).isHead = w.isHead ∧
    (∀ n, (w.WriteHeader code).contentLength = some n →
      w.contentLength = some n ∨ declaredLength w.header = some n) := by
  have c1 : ¬ (code < 100 ∨ code > 999) := by omega
  have c2 : ¬ (100 ≤ code ∧ code ≤ 199 ∧ code ≠ 101) := by omega
  unfold ResponseWriter.WriteHeader
  rw [if_neg (by simp [hp]), if_neg (by simp [hw]), if_neg c1, if_neg c2]
  split_ifs with hg
  · exact ⟨rfl, rfl, rfl, rfl, hp, rfl, rfl, fun n hn => Or.inl hn⟩
  · split
    · next m hd =>
      exact ⟨rfl, rfl, rfl, rfl, hp, rfl, rfl, fun n hn => Or.inr (hd.trans hn)⟩
    · exact ⟨rfl, rfl, rfl, rfl, hp, rfl, rfl, fun n hn => Or.inl hn⟩

theorem Write_sent (w : ResponseWriter) (b : List UInt8)
    (hp : w.panicked = false) (hw : w.wroteHeader = true)
    (ha : bodyAllowedForStatus w.status = true) (hh : w.isHead = false)
    (hl : ∀ n, w.contentLength = some n → w.written + b.length ≤ n) :
    (w.Write b).wroteHeader = true ∧ (w.Write b).status = w.status ∧
    (w.Write b).sentHeader = w.sentHeader ∧ (w.Write b).body = w.body ++ b := by
  unfold ResponseWriter.Write
  simp only [hp, hw, if_true, if_false, Bool.false_eq_true, ha, Bool.not_true]
  by_cases hb : b.length = 0
  · have hb0 : b = [] := List.length_eq_zero.1 hb
    simp [hb0, hw]
  · simp only [hb, if_false, hh, Bool.false_eq_true]
    cases hc : w.contentLength with
    | none => simp [hw]
    | some n =>
      have := hl n hc
      have hn : ¬ (w.written + b.length > n) := by omega
      simp [hn, hw]

/-- C10, as amended: on a cache hit whose body is read without error, the
handler calls on the response writer, in this order, `Header().Set(k, v)` once
for every stored key `k`, with `v` the stored values of `k` joined with ",",
then `WriteHeader` with the stored status and `Write` with exactly the stored
body, and makes no other call that writes.  On a writer of net/http that has
sent nothing yet, for a request other than HEAD, a stored status from 200 to 999
other than 204 and 304, and a `Content-Length` that is either not declared or
valid and not smaller than the length of the body, the response has the stored
status and exactly the stored body; for every stored
key (the canonical forms of the stored keys being pairwise distinct) the
response header under the canonical form of the key carries ONE value, the
stored values joined with ","; and every other header of the response is one
that was already set on the writer. -/
theorem cacheMiddleware_hit_response (next : ResponseWriter → Request → ResponseWriter)
    (s : Server) (r : Request) (cache : Cache) (w : ResponseWriter)
    (hc : s.cacheController.IsCacheableRequest r = true)
    (hg : s.cacheController.GetCache r "" (s.getServiceKey r) = .ok cache)
    (hb : cache.Body.err = none) :
    writeCalls (s.cacheMiddleware r) =
      cache.Headers.map (fun p => Effect.headerSet p.1 (stringsJoin p.2 ",")) ++
        [.writeHeader cache.StatusCode, .write cache.Body.data] ∧
    (w.pristine = true → w.isHead = false →
      200 ≤ cache.StatusCode → cache.StatusCode ≤ 999 →
      cache.StatusCode ≠ 204 → cache.StatusCode ≠ 304 →
      ((applyHeaders w.header cache.Headers).get "Content-Length" = "" ∨
        ∃ n, declaredLength (applyHeaders w.header cache.Headers) = some n ∧
          cache.Body.data.length ≤ n) →
      (ResponseWriter.run next w (s.cacheMiddleware r)).wroteHeader = true ∧
      (ResponseWriter.run next w (s.cacheMiddleware r)).status = cache.StatusCode ∧
      (ResponseWriter.run next w (s.cacheMiddleware r)).body = cache.Body.data ∧
      ((canonicalKeys cache.Headers).Nodup → ∀ p ∈ cache.Headers,
        (ResponseWriter.run next w (s.cacheMiddleware r)).sentHeader.values
            (CanonicalMIMEHeaderKey p.1) = some [stringsJoin p.2 ","]) ∧
      (∀ c, c ∉ canonicalKeys cache.Headers →
        (ResponseWriter.run next w (s.cacheMiddleware r)).sentHeader.values c =
          w.header.values c)) := by
  constructor
  · rw [cacheMiddleware_hit s r cache hc hg hb]
    have e : writeCalls (Effect.logDebug "checking cache" :: Effect.logDebug "cached response" ::
        (setHeaders cache.Headers ++
          [Effect.writeHeader cache.StatusCode, Effect.write cache.Body.data])) =
        writeCalls (setHeaders cache.Headers ++
          [Effect.writeHeader cache.StatusCode, Effect.write cache.Body.data]) := rfl
    rw [e, writeCalls_setHeaders]
    rfl
  · intro hpr hh h1 h2 h3 h4 hlen
    have hl : ∀ n, declaredLength (applyHeaders w.header cache.Headers) = some n →
        cache.Body.data.length ≤ n := by
      intro n hn
      rcases hlen with h0 | ⟨m, hm, hle⟩
      · simp [declaredLength, h0] at hn
      · rw [hm] at hn
        cases hn
        exact hle
    simp only [ResponseWriter.pristine, Bool.and_eq_true, Bool.not_eq_true',
      Option.isNone_iff_eq_none, decide_eq_true_eq, List.isEmpty_iff] at hpr
    obtain ⟨⟨⟨⟨hw, hp⟩, hcl⟩, hwr⟩, hbody⟩ := hpr
    rw [run_hit next s r cache w hc hg hb hp]
    obtain ⟨f1, f2, f3, f4, f5, f6, f7, f8⟩ :=
      WriteHeader_final { w with header := applyHeaders w.header cache.Headers }
        cache.StatusCode hp hw h1 h2
    have ha : bodyAllowedForStatus
        (ResponseWriter.WriteHeader { w with header := applyHeaders w.header cache.Headers }
          cache.StatusCode).status = true := by
      rw [f2]
      unfold bodyAllowedForStatus
      have c1 : ¬ (100 ≤ cache.StatusCode ∧ cache.StatusCode ≤ 199) := by omega
      simp [c1, h3, h4]
    have hl2 : ∀ n, (ResponseWriter.WriteHeader
          { w with header := applyHeaders w.header cache.Headers }
          cache.StatusCode).contentLength = some n →
        (ResponseWriter.WriteHeader { w with header := applyHeaders w.header cache.Headers }
          cache.StatusCode).written + cache.Body.data.length ≤ n := by
      intro n hn
      rw [f6]
      rcases f8 n hn with h | h
      · simp [hcl] at h
      · have := hl n h
        simp only [hwr]
        omega
    obtain ⟨g1, g2, g3, g4⟩ := Write_sent _ cache.Body.data f5 f1 ha (f7.trans hh) hl2
    refine ⟨g1, g2.trans f2, ?_, ?_, ?_⟩
    · rw [g4, f4]; simp [hbody]
    · intro hnd p hp1
      rw [g3, f3]
      exact applyHeaders_stored _ _ hnd p hp1
    · intro c hcn
      rw [g3, f3]
      exact applyHeaders_frame _ _ c hcn

/-- C10, as stated, fails.  The stored entry `variedEntry` has the two values
"Accept" and "Origin" under the key "Vary", and the response written on the hit
carries one value, "Accept,Origin", under that key.  For the entry stored with
the status code 0 `WriteHeader` panics and no status and no body is sent, and
for the entry stored with the status 204 the body is refused. -/
theorem cacheMiddleware_hit_joins_header_values :
    ((serverWith variedEntry).cacheController.IsCacheableRequest exampleRequest = true ∧
      (serverWith variedEntry).cacheController.GetCache exampleRequest ""
          ((serverWith variedEntry).getServiceKey exampleRequest) = .ok variedEntry ∧
      variedEntry.Body.err = none ∧
      variedEntry.Headers.values "Vary" = some ["Accept", "Origin"] ∧
      (ResponseWriter.run (fun w _ => w) ResponseWriter.fresh
          ((serverWith variedEntry).cacheMiddleware exampleRequest)).sentHeader.values "Vary" =
        some ["Accept,Origin"] ∧
      (ResponseWriter.run (fun w _ => w) ResponseWriter.fresh
          ((serverWith variedEntry).cacheMiddleware exampleRequest)).sentHeader.values "Vary" ≠
        variedEntry.Headers.values "Vary") ∧
    ((ResponseWriter.run (fun w _ => w) ResponseWriter.fresh
          ((serverWith statuslessEntry).cacheMiddleware exampleRequest)).panicked = true ∧
      (ResponseWriter.run (fun w _ => w) ResponseWriter.fresh
          ((serverWith statuslessEntry).cacheMiddleware exampleRequest)).wroteHeader = false ∧
      (ResponseWriter.run (fun w _ => w) ResponseWriter.fresh
          ((serverWith statuslessEntry).cacheMiddleware exampleRequest)).body = []) ∧
    ((ResponseWriter.run (fun w _ => w) ResponseWriter.fresh
          ((serverWith noContentEntry).cacheMiddleware exampleRequest)).status = 204 ∧
      (ResponseWriter.run (fun w _ => w) ResponseWriter.fresh
          ((serverWith noContentEntry).cacheMiddleware exampleRequest)).body = [] ∧
      noContentEntry.Body.data = [104]) := by
  rw [run_hit (fun w _ => w) (serverWith variedEntry) exampleRequest variedEntry
    ResponseWriter.fresh rfl rfl rfl rfl,
    run_hit (fun w _ => w) (serverWith statuslessEntry) exampleRequest statuslessEntry
    ResponseWriter.fresh rfl rfl rfl rfl,
    run_hit (fun w _ => w) (serverWith noContentEntry) exampleRequest noContentEntry
    ResponseWriter.fresh rfl rfl rfl rfl]
  refine ⟨⟨rfl, rfl, rfl, by decide, by decide, by decide⟩, ⟨by decide, by decide, by decide⟩,
    ⟨by decide, by decide, by decide⟩⟩

/-- C10, as amended, at a concrete input: the calls made for `variedEntry`, and
the status, body and header of the response written for it. -/
theorem cacheMiddleware_hit_response_witness :
    writeCalls ((serverWith variedEntry).cacheMiddleware exampleRequest) =
      [.headerSet "Vary" "Accept,Origin", .writeHeader 200, .write [104, 105]] ∧
    (ResponseWriter.run (fun w _ => w) ResponseWriter.fresh
        ((serverWith variedEntry).cacheMiddleware exampleRequest)).status = 200 ∧
    (ResponseWriter.run (fun w _ => w) ResponseWriter.fresh
        ((serverWith variedEntry).cacheMiddleware exampleRequest)).body = [104, 105] ∧
    (ResponseWriter.run (fun w _ => w) ResponseWriter.fresh
        ((serverWith variedEntry).cacheMiddleware exampleRequest)).sentHeader.values
        (CanonicalMIMEHeaderKey "Vary") = some ["Accept,Origin"] :=
  ⟨(cacheMiddleware_hit_response (fun w _ => w) (serverWith variedEntry) exampleRequest
      variedEntry ResponseWriter.fresh rfl rfl rfl).1,
   ((cacheMiddleware_hit_response (fun w _ => w) (serverWith variedEntry) exampleRequest
      variedEntry ResponseWriter.fresh rfl rfl rfl).2 rfl rfl (by decide) (by decide)
      (by decide) (by decide) (Or.inl (by decide))).2.1,
   ((cacheMiddleware_hit_response (fun w _ => w) (serverWith variedEntry) exampleRequest
      variedEntry ResponseWriter.fresh rfl rfl rfl).2 rfl rfl (by decide) (by decide)
      (by decide) (by decide) (Or.inl (by decide))).2.2.1,
   ((cacheMiddleware_hit_response (fun w _ => w) (serverWith variedEntry) exampleRequest
      variedEntry ResponseWriter.fresh rfl rfl rfl).2 rfl rfl (by decide) (by decide)
      (by decide) (by decide) (Or.inl (by decide))).2.2.2.1
      (by decide) ("Vary", ["Accept", "Origin"]) (by decide)⟩

/-! ## Properties of `UpdateIngressStatus` -/

/-- The key under which `UpdateIngressStatus` looks the rule up. -/
theorem MetaNamespaceKeyFunc_ok (ingress : IngressHTTP) :
    ∃ key, MetaNamespaceKeyFunc ingress = .ok key := ⟨_, rfl⟩

theorem GetByKey_assign_self (key : String) (obj : Obj) :
    ∀ (index : Index) (o : Obj), index.GetByKey key = .ok (some o) →
      (Index.assign key obj index).GetByKey key = .ok (some obj) := by
  intro index
  induction index with
  | nil => intro o h; simp [Index.GetByKey] at h
  | cons p index ih =>
    intro o h
    rcases p with ⟨k, v⟩
    by_cases hk : k = key
    · simp [Index.assign, Index.GetByKey, hk]
    · have h1 : Index.GetByKey index key = .ok (some o) := by
        simpa [Index.GetByKey, List.find?_cons, hk] using h
      have h2 := ih o h1
      simp only [Index.GetByKey, Except.ok.injEq] at h2
      simp [Index.assign, Index.GetByKey, List.find?_cons, hk, h2]

theorem assign_assign (key : String) (obj : Obj) :
    ∀ (index : Index), Index.assign key obj (Index.assign key obj index) =
      Index.assign key obj index := by
  intro index
  induction index with
  | nil => rfl
  | cons p index ih =>
    rcases p with ⟨k, v⟩
    by_cases hk : k = key
    · simp [Index.assign, hk]
    · simp [Index.assign, hk, ih]

theorem UpdateIngressStatus_same (index : Index) (ingress : IngressHTTP) (healthy : Bool)
    (h : ingress.Status.IsServiceHealthy = healthy) :
    UpdateIngressStatus index ingress healthy = ⟨index, none, []⟩ := by
  simp [UpdateIngressStatus, h]

theorem UpdateIngressStatus_rule (index : Index) (ingress i : IngressHTTP) (healthy : Bool)
    (key : String) (h : ingress.Status.IsServiceHealthy ≠ healthy)
    (hk : MetaNamespaceKeyFunc ingress = .ok key)
    (hg : index.GetByKey key = .ok (some (.ingress i))) :
    UpdateIngressStatus index ingress healthy =
      ⟨Index.assign key (.ingress { i with Status := ⟨healthy⟩ }) index, none,
        [.lock, .setHealthy key healthy, .unlock]⟩ := by
  unfold UpdateIngressStatus
  simp only [h, if_false, hk, hg]

theorem UpdateIngressStatus_other (index : Index) (ingress : IngressHTTP) (healthy : Bool)
    (key rendering : String) (h : ingress.Status.IsServiceHealthy ≠ healthy)
    (hk : MetaNamespaceKeyFunc ingress = .ok key)
    (hg : index.GetByKey key = .ok (some (.other rendering))) :
    UpdateIngressStatus index ingress healthy =
      ⟨index, some (.errorf ("unexpected object " ++ rendering)), [.lock, .unlock]⟩ := by
  unfold UpdateIngressStatus
  simp only [h, if_false, hk, hg]

theorem UpdateIngressStatus_absent (index : Index) (ingress : IngressHTTP) (healthy : Bool)
    (key : String) (h : ingress.Status.IsServiceHealthy ≠ healthy)
    (hk : MetaNamespaceKeyFunc ingress = .ok key)
    (hg : index.GetByKey key = .ok none) :
    UpdateIngressStatus index ingress healthy =
      ⟨index, some (.errorf ("ingress " ++ ingress.Name ++ " not found")),
        [.lock, .unlock]⟩ := by
  unfold UpdateIngressStatus
  simp only [h, if_false, hk, hg]

theorem GetByKey_cases (index : Index) (key : String) :
    index.GetByKey key = .ok none ∨
      (∃ rendering, index.GetByKey key = .ok (some (.other rendering))) ∨
      (∃ i, index.GetByKey key = .ok (some (.ingress i))) := by
  unfold Index.GetByKey
  cases (List.find? (fun p => decide (p.1 = key)) index) with
  | none => exact Or.inl rfl
  | some p =>
    rcases p with ⟨k, o⟩
    cases o with
    | ingress i => exact Or.inr (Or.inr ⟨i, rfl⟩)
    | other s => exact Or.inr (Or.inl ⟨s, rfl⟩)

/-- C7, as stated, fails: the index stores `webRule` as unhealthy, the caller's
copy `staleWebRule` carries the status healthy, and `UpdateIngressStatus` with
`healthy = true` returns a nil error without taking the lock, leaving the stored
rule unhealthy. -/
theorem UpdateIngressStatus_trusts_argument :
    MetaNamespaceKeyFunc staleWebRule = .ok "default/web" ∧
    webIndex.GetByKey "default/web" = .ok (some (.ingress webRule)) ∧
    webRule.Status.IsServiceHealthy = false ∧
    (UpdateIngressStatus webIndex staleWebRule true).err = none ∧
    (UpdateIngressStatus webIndex staleWebRule true).effects = [] ∧
    (UpdateIngressStatus webIndex staleWebRule true).index.GetByKey "default/web" =
      .ok (some (.ingress webRule)) := by
  rw [UpdateIngressStatus_same webIndex staleWebRule true rfl]
  exact ⟨rfl, rfl, rfl, rfl, rfl, rfl⟩

/-- C7, as amended: for a rule argument whose key is present in the index,
`UpdateIngressStatus` is a no-op exactly when the status carried by the rule
ARGUMENT equals `healthy`; otherwise it takes the lock, re-resolves the stored
object by key and, when that is a rule, sets its `IsServiceHealthy` to
`healthy`.  Consequently, when the call returns a nil error and the status of
the argument differs from `healthy` or equals the stored status, the rule
stored under the key has `IsServiceHealthy = healthy` afterwards. -/
theorem UpdateIngressStatus_by_argument_status (index : Index) (ingress : IngressHTTP)
    (healthy : Bool) (key : String) (obj : Obj)
    (hk : MetaNamespaceKeyFunc ingress = .ok key)
    (hpresent : index.GetByKey key = .ok (some obj)) :
    ((UpdateIngressStatus index ingress healthy).effects = [] ↔
      ingress.Status.IsServiceHealthy = healthy) ∧
    (ingress.Status.IsServiceHealthy = healthy →
      UpdateIngressStatus index ingress healthy = ⟨index, none, []⟩) ∧
    (ingress.Status.IsServiceHealthy ≠ healthy → ∀ i, obj = .ingress i →
      UpdateIngressStatus index ingress healthy =
        ⟨Index.assign key (.ingress { i with Status := ⟨healthy⟩ }) index, none,
          [.lock, .setHealthy key healthy, .unlock]⟩ ∧
      (UpdateIngressStatus index ingress healthy).index.GetByKey key =
        .ok (some (.ingress { i with Status := ⟨healthy⟩ }))) ∧
    ((UpdateIngressStatus index ingress healthy).err = none →
      (ingress.Status.IsServiceHealthy ≠ healthy ∨
        ∃ i, obj = .ingress i ∧
          i.Status.IsServiceHealthy = ingress.Status.IsServiceHealthy) →
      ∃ i, (UpdateIngressStatus index ingress healthy).index.GetByKey key =
          .ok (some (.ingress i)) ∧ i.Status.IsServiceHealthy = healthy) := by
  have hupd : ingress.Status.IsServiceHealthy ≠ healthy → ∀ i, obj = .ingress i →
      UpdateIngressStatus index ingress healthy =
        ⟨Index.assign key (.ingress { i with Status := ⟨healthy⟩ }) index, none,
          [.lock, .setHealthy key healthy, .unlock]⟩ ∧
      (UpdateIngressStatus index ingress healthy).index.GetByKey key =
        .ok (some (.ingress { i with Status := ⟨healthy⟩ })) := by
    intro h i hi
    subst hi
    rw [UpdateIngressStatus_rule index ingress i healthy key h hk hpresent]
    exact ⟨rfl, GetByKey_assign_self key _ index _ hpresent⟩
  refine ⟨?_, UpdateIngressStatus_same index ingress healthy, hupd, ?_⟩
  · constructor
    · intro he
      by_contra h
      cases obj with
      | ingress i =>
        rw [UpdateIngressStatus_rule index ingress i healthy key h hk hpresent] at he
        simp at he
      | other s =>
        rw [UpdateIngressStatus_other index ingress healthy key s h hk hpresent] at he
        simp at he
    · intro h
      rw [UpdateIngressStatus_same index ingress healthy h]
  · intro herr hcase
    by_cases h : ingress.Status.IsServiceHealthy = healthy
    · rcases hcase with hne | ⟨i, hi, hs⟩
      · exact absurd h hne
      · subst hi
        rw [UpdateIngressStatus_same index ingress healthy h]
        exact ⟨i, hpresent, hs.trans h⟩
    · cases obj with
      | ingress i => exact ⟨_, (hupd h i rfl).2, rfl⟩
      | other s =>
        rw [UpdateIngressStatus_other index ingress healthy key s h hk hpresent] at herr
        simp at herr

/-- C7, as amended, at a concrete input: the unhealthy `webRule`, reported
healthy, is stored as healthy afterwards. -/
theorem UpdateIngressStatus_by_argument_status_witness :
    (UpdateIngressStatus webIndex webRule true).index.GetByKey "default/web" =
      .ok (some (.ingress { webRule with Status := ⟨true⟩ })) :=
  ((UpdateIngressStatus_by_argument_status webIndex webRule true "default/web"
    (.ingress webRule) rfl rfl).2.2.1 (by decide) webRule rfl).2

theorem UpdateIngressStatus_twice_index (index : Index) (ingress : IngressHTTP)
    (healthy : Bool) :
    (UpdateIngressStatus (UpdateIngressStatus index ingress healthy).index ingress
      healthy).index = (UpdateIngressStatus index ingress healthy).index := by
  by_cases h : ingress.Status.IsServiceHealthy = healthy
  · simp [UpdateIngressStatus_same _ ingress healthy h]
  · obtain ⟨key, hk⟩ := MetaNamespaceKeyFunc_ok ingress
    rcases GetByKey_cases index key with hg | ⟨s, hg⟩ | ⟨i, hg⟩
    · rw [UpdateIngressStatus_absent index ingress healthy key h hk hg]
      simp only
      rw [UpdateIngressStatus_absent index ingress healthy key h hk hg]
    · rw [UpdateIngressStatus_other index ingress healthy key s h hk hg]
      simp only
      rw [UpdateIngressStatus_other index ingress healthy key s h hk hg]
    · rw [UpdateIngressStatus_rule index ingress i healthy key h hk hg]
      simp only
      rw [UpdateIngressStatus_rule _ ingress _ healthy key h hk
        (GetByKey_assign_self key _ index _ hg)]
      simp only
      exact assign_assign key _ index

theorem UpdateIngressStatus_stale_locks (index : Index) (ingress : IngressHTTP)
    (healthy : Bool) (h : ingress.Status.IsServiceHealthy ≠ healthy) :
    ∃ rest, (UpdateIngressStatus index ingress healthy).effects = .lock :: rest := by
  obtain ⟨key, hk⟩ := MetaNamespaceKeyFunc_ok ingress
  rcases GetByKey_cases index key with hg | ⟨s, hg⟩ | ⟨i, hg⟩
  · rw [UpdateIngressStatus_absent index ingress healthy key h hk hg]
    exact ⟨_, rfl⟩
  · rw [UpdateIngressStatus_other index ingress healthy key s h hk hg]
    exact ⟨_, rfl⟩
  · rw [UpdateIngressStatus_rule index ingress i healthy key h hk hg]
    exact ⟨_, rfl⟩

/-- C8, as amended: calling `UpdateIngressStatus` twice in succession with the
same rule argument and the same boolean leaves the index, after the second
call, identical to the index after the first call.  The second call returns
through the equality check, without lock and without assignment, exactly when
the status carried by the rule argument equals `healthy`; it does so also when,
after a first call that updated the stored rule, it is given the rule as now
stored.  Given again a copy whose status differs from `healthy`, the second
call takes the write lock again and, when the key holds a rule, assigns the
same value again. -/
theorem UpdateIngressStatus_idempotent (index : Index) (ingress : IngressHTTP)
    (healthy : Bool) :
    (UpdateIngressStatus (UpdateIngressStatus index ingress healthy).index ingress
      healthy).index = (UpdateIngressStatus index ingress healthy).index ∧
    (ingress.Status.IsServiceHealthy = healthy →
      UpdateIngressStatus (UpdateIngressStatus index ingress healthy).index ingress healthy =
        ⟨(UpdateIngressStatus index ingress healthy).index, none, []⟩) ∧
    (ingress.Status.IsServiceHealthy ≠ healthy →
      (UpdateIngressStatus index ingress healthy).err = none →
      ∃ key stored, MetaNamespaceKeyFunc ingress = .ok key ∧
        (UpdateIngressStatus index ingress healthy).index.GetByKey key =
          .ok (some (.ingress stored)) ∧
        UpdateIngressStatus (UpdateIngressStatus index ingress healthy).index stored healthy =
          ⟨(UpdateIngressStatus index ingress healthy).index, none, []⟩) ∧
    ((UpdateIngressStatus (UpdateIngressStatus index ingress healthy).index ingress
        healthy).effects = [] ↔ ingress.Status.IsServiceHealthy = healthy) ∧
    (ingress.Status.IsServiceHealthy ≠ healthy →
      ∃ rest, (UpdateIngressStatus (UpdateIngressStatus index ingress healthy).index ingress
        healthy).effects = .lock :: rest) ∧
    (ingress.Status.IsServiceHealthy ≠ healthy → ∀ key i,
      MetaNamespaceKeyFunc ingress = .ok key →
      index.GetByKey key = .ok (some (.ingress i)) →
      UpdateIngressStatus (UpdateIngressStatus index ingress healthy).index ingress healthy =
        ⟨(UpdateIngressStatus index ingress healthy).index, none,
          [.lock, .setHealthy key healthy, .unlock]⟩) := by
  refine ⟨UpdateIngressStatus_twice_index index ingress healthy, ?_, ?_, ?_,
    fun h => UpdateIngressStatus_stale_locks _ ingress healthy h, ?_⟩
  · intro h
    exact UpdateIngressStatus_same _ ingress healthy h
  · intro h herr
    obtain ⟨key, hk⟩ := MetaNamespaceKeyFunc_ok ingress
    rcases GetByKey_cases index key with hg | ⟨s, hg⟩ | ⟨i, hg⟩
    · rw [UpdateIngressStatus_absent index ingress healthy key h hk hg] at herr
      simp at herr
    · rw [UpdateIngressStatus_other index ingress healthy key s h hk hg] at herr
      simp at herr
    · refine ⟨key, { i with Status := ⟨healthy⟩ }, hk, ?_, ?_⟩
      · rw [UpdateIngressStatus_rule index ingress i healthy key h hk hg]
        exact GetByKey_assign_self key _ index _ hg
      · exact UpdateIngressStatus_same _ _ healthy rfl
  · constructor
    · intro he
      by_contra h
      obtain ⟨rest, hr⟩ := UpdateIngressStatus_stale_locks
        (UpdateIngressStatus index ingress healthy).index ingress healthy h
      rw [hr] at he
      simp at he
    · intro h
      rw [UpdateIngressStatus_same _ ingress healthy h]
  · intro h key i hk hg
    have h1 := UpdateIngressStatus_rule index ingress i healthy key h hk hg
    have h2 := UpdateIngressStatus_rule
      (Index.assign key (.ingress { i with Status := ⟨healthy⟩ }) index) ingress
      { i with Status := ⟨healthy⟩ } healthy key h hk
      (GetByKey_assign_self key _ index _ hg)
    rw [h1]
    simp only
    rw [h2]
    simp only [UpdateResult.mk.injEq, and_true]
    exact assign_assign key _ index

/-- C8, as stated, fails: with the unhealthy `webRule` as argument and
`healthy = true`, the second of two successive calls takes the write lock and
assigns again. -/
theorem UpdateIngressStatus_second_call_locks :
    (UpdateIngressStatus (UpdateIngressStatus webIndex webRule true).index webRule
      true).effects = [.lock, .setHealthy "default/web" true, .unlock] := by
  decide

/-- C8, as amended, at a concrete input: the second call with the rule as stored
after the first call does nothing. -/
theorem UpdateIngressStatus_idempotent_witness :
    ∃ key stored, MetaNamespaceKeyFunc webRule = .ok key ∧
      (UpdateIngressStatus webIndex webRule true).index.GetByKey key =
        .ok (some (.ingress stored)) ∧
      UpdateIngressStatus (UpdateIngressStatus webIndex webRule true).index stored true =
        ⟨(UpdateIngressStatus webIndex webRule true).index, none, []⟩ :=
  (UpdateIngressStatus_idempotent webIndex webRule true).2.2.1 (by decide) rfl

theorem errorf_not_found_ne_unexpected (name rendering : String) :
    "ingress " ++ name ++ " not found" ≠ "unexpected object " ++ rendering := by
  intro h
  have h1 := congrArg String.data h
  simp only [String.data_append] at h1
  simp at h1

/-- C9: when the status of the rule argument differs from `healthy` and no
object is stored under the key of the rule, `UpdateIngressStatus` returns the
error "ingress NAME not found" and leaves the index unchanged; this error
differs from the error of every call that finds an object that is not a rule,
and it neither is nor wraps `ErrIngressNotFound`. -/
theorem UpdateIngressStatus_not_found (index : Index) (ingress : IngressHTTP)
    (healthy : Bool) (key : String)
    (h : ingress.Status.IsServiceHealthy ≠ healthy)
    (hk : MetaNamespaceKeyFunc ingress = .ok key)
    (habsent : index.GetByKey key = .ok none) :
    (UpdateIngressStatus index ingress healthy).err =
      some (.errorf ("ingress " ++ ingress.Name ++ " not found")) ∧
    (UpdateIngressStatus index ingress healthy).index = index ∧
    (∀ (index2 : Index) (ingress2 : IngressHTTP) (healthy2 : Bool) (key2 rendering : String),
      ingress2.Status.IsServiceHealthy ≠ healthy2 →
      MetaNamespaceKeyFunc ingress2 = .ok key2 →
      index2.GetByKey key2 = .ok (some (.other rendering)) →
      (UpdateIngressStatus index2 ingress2 healthy2).err ≠ none ∧
      (UpdateIngressStatus index2 ingress2 healthy2).err ≠
        (UpdateIngressStatus index ingress healthy).err) ∧
    (UpdateIngressStatus index ingress healthy).err ≠ some (.var ErrIngressNotFound) ∧
    (∀ e, (UpdateIngressStatus index ingress healthy).err = some e →
      errorsIs e ErrIngressNotFound = false) := by
  rw [UpdateIngressStatus_absent index ingress healthy key h hk habsent]
  refine ⟨rfl, rfl, ?_, by simp, ?_⟩
  · intro index2 ingress2 healthy2 key2 rendering h2 hk2 hg2
    rw [UpdateIngressStatus_other index2 ingress2 healthy2 key2 rendering h2 hk2 hg2]
    refine ⟨by simp, ?_⟩
    intro he
    simp only [Option.some.injEq, GoError.errorf.injEq] at he
    exact errorf_not_found_ne_unexpected _ _ he.symm
  · intro e he
    simp only [Option.some.injEq] at he
    subst he
    simp [errorsIs]

/-- C9, at a concrete input: updating `webRule` against the empty index returns
"ingress web not found" and leaves the index empty. -/
theorem UpdateIngressStatus_not_found_witness :
    (UpdateIngressStatus [] webRule true).err = some (.errorf "ingress web not found") ∧
    (UpdateIngressStatus [] webRule true).index = [] :=
  ⟨(UpdateIngressStatus_not_found [] webRule true "default/web" (by decide) rfl rfl).1,
   (UpdateIngressStatus_not_found [] webRule true "default/web" (by decide) rfl rfl).2.1⟩

end Gotway
